import Mathlib

/-!
Verification of the PyLabFlow transfer subsystem.

Shallow embedding of the two source files

  * src/plf/_transfer_utils.py   (dependency resolver, context mapper)
  * src/plf1/transfer.py         (transfer orchestrator, archive codec,
                                  clone report)

External collaborators (the PipeLine store, the sqlite Db, pathlib and the
zipfile module) are modelled by explicit parameters; everything that the
code of the repository itself decides (control flow, the order of effects, the
checks and the error points) is translated directly from the source.
-/

namespace PLF

/-! ## Dependency resolver, from src/plf/_transfer_utils.py

The Db collaborator answers one query,
SELECT prev FROM edges WHERE next = ? LIMIT 1.  We model the edges table
as a list of (prev, next) pairs; the query returns the first row whose
next-column matches, and the caller treats a falsy prev (empty string /
NULL, modelled as the empty string) as absent, mirroring
if rows and rows[0][0] at line 72. -/

/-- Model of the single Db query used by get_dependencies: first edge whose
second component (next) equals the argument; an empty prev is falsy in
Python and is treated as no predecessor. -/
def queryPrev (edges : List (String × String)) (pplid : String) : Option String :=
  match edges.find? (fun e => e.2 == pplid) with
  | none => none
  | some e => if e.1 = "" then none else some e.1

/-- The set of distinct prev-column values of the edges table; every id that
collect_deps can ever add to its accumulator lies in this set. -/
def prevIds (edges : List (String × String)) : Finset String :=
  (edges.map Prod.fst).toFinset

lemma queryPrev_mem_prevIds (edges : List (String × String)) (p q : String)
    (h : queryPrev edges p = some q) : q ∈ prevIds edges := by
  unfold queryPrev at h
  cases hf : edges.find? (fun e => e.2 == p) with
  | none => rw [hf] at h; exact absurd h (by simp)
  | some e =>
    rw [hf] at h
    dsimp only at h
    by_cases he : e.1 = ""
    · rw [if_pos he] at h; exact absurd h (by simp)
    · rw [if_neg he] at h
      have hq : q = e.1 := by
        have := Option.some.inj h
        exact this.symm
      have hmem : e ∈ edges := List.mem_of_find?_eq_some hf
      subst hq
      unfold prevIds
      rw [List.mem_toFinset]
      exact List.mem_map.mpr ⟨e, hmem, rfl⟩

/-- Embedding of the inner collect_deps closure of
TransferContext.get_dependencies (lines 67-77).  The pair returned is the
dependencies set together with the number of db.query calls performed.
Termination is by the number of prev-ids not yet in the accumulator: the
recursive call only happens after a new id is inserted. -/
def collectDeps (edges : List (String × String)) (recursive : Bool)
    (pplid : String) (deps : Finset String) : Finset String × Nat :=
  match h : queryPrev edges pplid with
  | none => (deps, 1)
  | some prev =>
    if hp : prev ∈ deps then (deps, 1)
    else
      if recursive then
        let r := collectDeps edges recursive prev (insert prev deps)
        (r.1, r.2 + 1)
      else (insert prev deps, 1)
termination_by (prevIds edges \ deps).card
decreasing_by
  apply Finset.card_lt_card
  rw [Finset.ssubset_iff_of_subset
        (Finset.sdiff_subset_sdiff (Finset.Subset.refl _) (Finset.subset_insert _ _))]
  exact ⟨prev,
    Finset.mem_sdiff.mpr ⟨queryPrev_mem_prevIds edges pplid prev h, hp⟩,
    fun hc => (Finset.mem_sdiff.mp hc).2 (Finset.mem_insert_self _ _)⟩

/-- Case analysis principle for collectDeps, mirroring the four paths
through the Python closure. -/
lemma collectDeps_cases (edges : List (String × String)) (recursive : Bool)
    (pplid : String) (deps : Finset String) :
    (queryPrev edges pplid = none ∧ collectDeps edges recursive pplid deps = (deps, 1)) ∨
    (∃ prev, queryPrev edges pplid = some prev ∧ prev ∈ deps ∧
      collectDeps edges recursive pplid deps = (deps, 1)) ∨
    (∃ prev, queryPrev edges pplid = some prev ∧ prev ∉ deps ∧ recursive = true ∧
      collectDeps edges recursive pplid deps =
        ((collectDeps edges recursive prev (insert prev deps)).1,
         (collectDeps edges recursive prev (insert prev deps)).2 + 1)) ∨
    (∃ prev, queryPrev edges pplid = some prev ∧ prev ∉ deps ∧ recursive = false ∧
      collectDeps edges recursive pplid deps = (insert prev deps, 1)) := by
  rw [collectDeps]
  cases h : queryPrev edges pplid with
  | none => exact Or.inl ⟨rfl, rfl⟩
  | some prev =>
    by_cases hp : prev ∈ deps
    · refine Or.inr (Or.inl ⟨prev, rfl, hp, ?_⟩)
      simp [hp]
    · cases hr : recursive with
      | true =>
        refine Or.inr (Or.inr (Or.inl ⟨prev, rfl, hp, rfl, ?_⟩))
        simp [hp]
      | false =>
        refine Or.inr (Or.inr (Or.inr ⟨prev, rfl, hp, rfl, ?_⟩))
        simp [hp]

/-- Embedding of TransferContext.get_dependencies (lines 50-80): returns the
set of collected dependency ids and the number of db queries issued. -/
def get_dependencies (edges : List (String × String)) (recursive : Bool)
    (pplid : String) : Finset String × Nat :=
  collectDeps edges recursive pplid ∅

/-- Embedding of TransferContext.resolve_dependencies (lines 134-155): the
union of the input ids and, for each input, the ids collected by
get_dependencies with recursive=True.  The Python function returns
list(all_pplids) where all_pplids is a set; we model the returned
collection as the underlying set, since the iteration order of a Python
set is unspecified. -/
def resolve_dependencies (edges : List (String × String))
    (pplids : List String) : Finset String :=
  pplids.foldl (fun acc p => acc ∪ (get_dependencies edges true p).1) pplids.toFinset

/-- The one-step predecessor relation induced by the edges table:
predStep edges a b holds when the db lookup for a returns b. -/
def predStep (edges : List (String × String)) (a b : String) : Prop :=
  queryPrev edges a = some b

lemma collectDeps_card_decrease (edges : List (String × String)) (p prev : String)
    (deps : Finset String) (h : queryPrev edges p = some prev) (hp : prev ∉ deps) :
    (prevIds edges \ insert prev deps).card < (prevIds edges \ deps).card := by
  apply Finset.card_lt_card
  rw [Finset.ssubset_iff_of_subset
        (Finset.sdiff_subset_sdiff (Finset.Subset.refl _) (Finset.subset_insert _ _))]
  exact ⟨prev,
    Finset.mem_sdiff.mpr ⟨queryPrev_mem_prevIds edges p prev h, hp⟩,
    fun hc => (Finset.mem_sdiff.mp hc).2 (Finset.mem_insert_self _ _)⟩

/-- Every id in the result of collectDeps was either already in the
accumulator or is a transitive predecessor of the starting id. -/
lemma collectDeps_sound (edges : List (String × String)) :
    ∀ (n : Nat) (p : String) (deps : Finset String),
      (prevIds edges \ deps).card ≤ n →
      ∀ y ∈ (collectDeps edges true p deps).1,
        y ∈ deps ∨ Relation.TransGen (predStep edges) p y := by
  intro n
  induction n with
  | zero =>
    intro p deps hcard y hy
    rcases collectDeps_cases edges true p deps with
      ⟨h, heq⟩ | ⟨prev, h, hp, heq⟩ | ⟨prev, h, hp, _, heq⟩ | ⟨prev, h, hp, hfalse, _⟩
    · rw [heq] at hy; exact Or.inl hy
    · rw [heq] at hy; exact Or.inl hy
    · exfalso
      have hmem : prev ∈ prevIds edges \ deps :=
        Finset.mem_sdiff.mpr ⟨queryPrev_mem_prevIds edges p prev h, hp⟩
      have hpos : 0 < (prevIds edges \ deps).card := Finset.card_pos.mpr ⟨prev, hmem⟩
      omega
    · exact absurd hfalse (by simp)
  | succ m ih =>
    intro p deps hcard y hy
    rcases collectDeps_cases edges true p deps with
      ⟨h, heq⟩ | ⟨prev, h, hp, heq⟩ | ⟨prev, h, hp, _, heq⟩ | ⟨prev, h, hp, hfalse, _⟩
    · rw [heq] at hy; exact Or.inl hy
    · rw [heq] at hy; exact Or.inl hy
    · rw [heq] at hy
      have hlt := collectDeps_card_decrease edges p prev deps h hp
      have hrec := ih prev (insert prev deps) (by omega) y hy
      rcases hrec with hin | htg
      · rcases Finset.mem_insert.mp hin with hpe | hd
        · subst hpe; exact Or.inr (Relation.TransGen.single h)
        · exact Or.inl hd
      · exact Or.inr (Relation.TransGen.head h htg)
    · exact absurd hfalse (by simp)

lemma transGen_head_cases {r : String → String → Prop} {a c : String}
    (h : Relation.TransGen r a c) : r a c ∨ ∃ b, r a b ∧ Relation.TransGen r b c := by
  rcases Relation.TransGen.head'_iff.mp h with ⟨b, hab, hbc⟩
  rcases Relation.reflTransGen_iff_eq_or_transGen.mp hbc with rfl | htg
  · exact Or.inl hab
  · exact Or.inr ⟨b, hab, htg⟩

/-- On an acyclic store, collectDeps collects every transitive predecessor
of the starting id (provided none of them is already in the accumulator,
which holds at the top-level call with an empty accumulator). -/
lemma collectDeps_complete (edges : List (String × String))
    (acyc : ∀ x, ¬ Relation.TransGen (predStep edges) x x) :
    ∀ (n : Nat) (p : String) (deps : Finset String),
      (prevIds edges \ deps).card ≤ n →
      (∀ a, Relation.TransGen (predStep edges) p a → a ∉ deps) →
      ∀ y, y ∈ deps ∨ Relation.TransGen (predStep edges) p y →
        y ∈ (collectDeps edges true p deps).1 := by
  intro n
  induction n with
  | zero =>
    intro p deps hcard hH y hy
    rcases collectDeps_cases edges true p deps with
      ⟨h, heq⟩ | ⟨prev, h, hp, heq⟩ | ⟨prev, h, hp, _, _⟩ | ⟨prev, h, hp, hfalse, _⟩
    · rw [heq]
      rcases hy with hin | htg
      · exact hin
      · exfalso
        rcases transGen_head_cases htg with hstep | ⟨b, hstep, _⟩
        · unfold predStep at hstep; rw [h] at hstep; exact Option.noConfusion hstep
        · unfold predStep at hstep; rw [h] at hstep; exact Option.noConfusion hstep
    · exact absurd hp (hH prev (Relation.TransGen.single h))
    · exfalso
      have hmem : prev ∈ prevIds edges \ deps :=
        Finset.mem_sdiff.mpr ⟨queryPrev_mem_prevIds edges p prev h, hp⟩
      have hpos : 0 < (prevIds edges \ deps).card := Finset.card_pos.mpr ⟨prev, hmem⟩
      omega
    · exact absurd hfalse (by simp)
  | succ m ih =>
    intro p deps hcard hH y hy
    rcases collectDeps_cases edges true p deps with
      ⟨h, heq⟩ | ⟨prev, h, hp, heq⟩ | ⟨prev, h, hp, _, heq⟩ | ⟨prev, h, hp, hfalse, _⟩
    · rw [heq]
      rcases hy with hin | htg
      · exact hin
      · exfalso
        rcases transGen_head_cases htg with hstep | ⟨b, hstep, _⟩
        · unfold predStep at hstep; rw [h] at hstep; exact Option.noConfusion hstep
        · unfold predStep at hstep; rw [h] at hstep; exact Option.noConfusion hstep
    · exact absurd hp (hH prev (Relation.TransGen.single h))
    · rw [heq]
      have hlt := collectDeps_card_decrease edges p prev deps h hp
      have hH2 : ∀ a, Relation.TransGen (predStep edges) prev a → a ∉ insert prev deps := by
        intro a hta hin
        rcases Finset.mem_insert.mp hin with hpe | hd
        · exact acyc prev (hpe ▸ hta)
        · exact hH a (Relation.TransGen.head h hta) hd
      have hy2 : y ∈ insert prev deps ∨ Relation.TransGen (predStep edges) prev y := by
        rcases hy with hin | htg
        · exact Or.inl (Finset.mem_insert_of_mem hin)
        · rcases transGen_head_cases htg with hstep | ⟨b, hstep, htb⟩
          · have hyp : y = prev := by
              have hs2 : queryPrev edges p = some y := hstep
              exact Option.some.inj (hs2.symm.trans h)
            exact Or.inl (hyp ▸ Finset.mem_insert_self _ _)
          · have hbp : b = prev := by
              have hs2 : queryPrev edges p = some b := hstep
              exact Option.some.inj (hs2.symm.trans h)
            exact Or.inr (hbp ▸ htb)
      exact ih prev (insert prev deps) (by omega) hH2 y hy2
    · exact absurd hfalse (by simp)

/-- With an empty starting accumulator, get_dependencies returns exactly the
transitive predecessors of the starting id (acyclic store). -/
lemma get_dependencies_spec (edges : List (String × String))
    (acyc : ∀ x, ¬ Relation.TransGen (predStep edges) x x) (p y : String) :
    y ∈ (get_dependencies edges true p).1 ↔
      Relation.TransGen (predStep edges) p y := by
  constructor
  · intro hy
    rcases collectDeps_sound edges ((prevIds edges \ ∅).card) p ∅ (le_refl _) y hy with
      hin | htg
    · exact absurd hin (Finset.not_mem_empty y)
    · exact htg
  · intro htg
    exact collectDeps_complete edges acyc ((prevIds edges \ ∅).card) p ∅ (le_refl _)
      (fun a _ => Finset.not_mem_empty a) y (Or.inr htg)

lemma mem_foldl_union (f : String → Finset String) :
    ∀ (l : List String) (init : Finset String) (y : String),
      y ∈ l.foldl (fun acc p => acc ∪ f p) init ↔ y ∈ init ∨ ∃ p ∈ l, y ∈ f p := by
  intro l
  induction l with
  | nil => intro init y; simp
  | cons hd tl ih =>
    intro init y
    simp only [List.foldl_cons]
    rw [ih]
    simp only [Finset.mem_union, List.mem_cons]
    constructor
    · rintro ((h | h) | ⟨p, hp, hy⟩)
      · exact Or.inl h
      · exact Or.inr ⟨hd, Or.inl rfl, h⟩
      · exact Or.inr ⟨p, Or.inr hp, hy⟩
    · rintro (h | ⟨p, (hp | hp), hy⟩)
      · exact Or.inl (Or.inl h)
      · exact Or.inl (Or.inr (hp ▸ hy))
      · exact Or.inr ⟨p, hp, hy⟩

/-- C3: for every input list of pipeline ids over an acyclic predecessor
relation, resolve_dependencies returns exactly the union of the input ids
and every transitive predecessor reachable from any input id. -/
theorem c3_resolve_dependencies_closure (edges : List (String × String))
    (pplids : List String)
    (acyc : ∀ x, ¬ Relation.TransGen (predStep edges) x x) (y : String) :
    y ∈ resolve_dependencies edges pplids ↔
      y ∈ pplids ∨ ∃ p ∈ pplids, Relation.TransGen (predStep edges) p y := by
  unfold resolve_dependencies
  rw [mem_foldl_union]
  simp only [List.mem_toFinset]
  constructor
  · rintro (h | ⟨p, hp, hy⟩)
    · exact Or.inl h
    · exact Or.inr ⟨p, hp, (get_dependencies_spec edges acyc p y).mp hy⟩
  · rintro (h | ⟨p, hp, hy⟩)
    · exact Or.inl h
    · exact Or.inr ⟨p, hp, (get_dependencies_spec edges acyc p y).mpr hy⟩

/-- A concrete two-edge chain: c depends on b, b depends on a. -/
def eChain : List (String × String) := [("a", "b"), ("b", "c")]

/-- A rank function witnessing that eChain is acyclic. -/
def rankChain (s : String) : Nat := if s = "c" then 2 else if s = "b" then 1 else 0

/-- A store admitting a rank function strictly decreasing along predecessor
lookups is acyclic. -/
lemma acyclic_of_rank (edges : List (String × String)) (rank : String → Nat)
    (hr : ∀ a b, queryPrev edges a = some b → rank b < rank a) :
    ∀ x, ¬ Relation.TransGen (predStep edges) x x := by
  have key : ∀ x y, Relation.TransGen (predStep edges) x y → rank y < rank x := by
    intro x y h
    induction h with
    | single hs => exact hr _ _ hs
    | tail _ hs ih => exact lt_trans (hr _ _ hs) ih
  intro x hx
  exact lt_irrefl _ (key x x hx)

lemma eChain_rank : ∀ a b, queryPrev eChain a = some b → rankChain b < rankChain a := by
  intro a b h
  unfold queryPrev at h
  cases hf : List.find? (fun e => e.2 == a) eChain with
  | none => rw [hf] at h; exact absurd h (by simp)
  | some e =>
    rw [hf] at h
    dsimp only at h
    have hmem : e ∈ eChain := List.mem_of_find?_eq_some hf
    have hpa := List.find?_some hf
    have ha : e.2 = a := by
      simp only [beq_iff_eq] at hpa
      exact hpa
    have hb : b = e.1 := by
      by_cases he : e.1 = ""
      · rw [if_pos he] at h; exact absurd h (by simp)
      · rw [if_neg he] at h; exact (Option.some.inj h).symm
    have hcases : e = ("a", "b") ∨ e = ("b", "c") := by
      simpa [eChain] using hmem
    rcases hcases with rfl | rfl
    · subst hb
      simp only [← ha]
      decide
    · subst hb
      simp only [← ha]
      decide

/-- Witness for C3: on the concrete chain a -> b -> c, resolving the tail
id c yields the ancestor a. -/
theorem c3_resolve_dependencies_closure_witness :
    "a" ∈ resolve_dependencies eChain ["c"] := by
  refine (c3_resolve_dependencies_closure eChain ["c"]
    (acyclic_of_rank eChain rankChain eChain_rank) "a").mpr ?_
  refine Or.inr ⟨"c", by simp, ?_⟩
  refine Relation.TransGen.head (b := "b") ?_ (Relation.TransGen.single ?_)
  · show queryPrev eChain "c" = some "b"
    decide
  · show queryPrev eChain "b" = some "a"
    decide

/-- The query count of collectDeps is bounded by one more than the number of
prev-ids not yet visited; this holds on every store, cyclic ones included. -/
lemma collectDeps_lookups (edges : List (String × String)) (recursive : Bool) :
    ∀ (n : Nat) (p : String) (deps : Finset String),
      (prevIds edges \ deps).card ≤ n →
      (collectDeps edges recursive p deps).2 ≤ (prevIds edges \ deps).card + 1 := by
  intro n
  induction n with
  | zero =>
    intro p deps hcard
    rcases collectDeps_cases edges recursive p deps with
      ⟨h, heq⟩ | ⟨prev, h, hp, heq⟩ | ⟨prev, h, hp, _, heq⟩ | ⟨prev, h, hp, _, heq⟩
    · rw [heq]; omega
    · rw [heq]; omega
    · exfalso
      have hmem : prev ∈ prevIds edges \ deps :=
        Finset.mem_sdiff.mpr ⟨queryPrev_mem_prevIds edges p prev h, hp⟩
      have hpos : 0 < (prevIds edges \ deps).card := Finset.card_pos.mpr ⟨prev, hmem⟩
      omega
    · rw [heq]; omega
  | succ m ih =>
    intro p deps hcard
    rcases collectDeps_cases edges recursive p deps with
      ⟨h, heq⟩ | ⟨prev, h, hp, heq⟩ | ⟨prev, h, hp, _, heq⟩ | ⟨prev, h, hp, _, heq⟩
    · rw [heq]; omega
    · rw [heq]; omega
    · rw [heq]
      have hlt := collectDeps_card_decrease edges p prev deps h hp
      have hrec := ih prev (insert prev deps) (by omega)
      simp only []
      omega
    · rw [heq]; omega

/-- C8 (amended): the dependency walk is total on every store, cyclic ones
included, and issues at most one db query more than the number of distinct
predecessor ids in the store. -/
theorem c8_walk_bounded_lookups (edges : List (String × String)) (recursive : Bool)
    (pplid : String) :
    (get_dependencies edges recursive pplid).2 ≤ (prevIds edges).card + 1 := by
  have h := collectDeps_lookups edges recursive ((prevIds edges \ ∅).card) pplid ∅
    (le_refl _)
  simpa using h

/-- A store with a single self-loop edge: a is recorded as its own direct
predecessor. -/
def eLoop : List (String × String) := [("a", "a")]

/-- All distinct pipeline ids mentioned anywhere in the edges table. -/
def idsOf (edges : List (String × String)) : Finset String :=
  (edges.map Prod.fst ++ edges.map Prod.snd).toFinset

lemma eLoop_eval : collectDeps eLoop true "a" ∅ = ({"a"}, 2) := by
  have h1 : queryPrev eLoop "a" = some "a" := by decide
  have hinner : collectDeps eLoop true "a" (insert "a" ∅) = (insert "a" ∅, 1) := by
    rcases collectDeps_cases eLoop true "a" (insert "a" ∅) with
      ⟨h, _⟩ | ⟨prev, h, hp, heq⟩ | ⟨prev, h, hp, _, _⟩ | ⟨prev, h, hp, hrec, _⟩
    · rw [h1] at h; exact absurd h (by simp)
    · exact heq
    · exfalso
      have hpe : prev = "a" := Option.some.inj (h.symm.trans h1)
      subst hpe
      exact hp (Finset.mem_insert_self _ _)
    · exfalso
      have hpe : prev = "a" := Option.some.inj (h.symm.trans h1)
      subst hpe
      exact hp (Finset.mem_insert_self _ _)
  rcases collectDeps_cases eLoop true "a" ∅ with
    ⟨h, _⟩ | ⟨prev, h, hp, _⟩ | ⟨prev, h, hp, _, heq⟩ | ⟨prev, h, hp, hrec, _⟩
  · rw [h1] at h; exact absurd h (by simp)
  · exfalso
    have hpe : prev = "a" := Option.some.inj (h.symm.trans h1)
    subst hpe
    exact absurd hp (Finset.not_mem_empty _)
  · have hpe : prev = "a" := Option.some.inj (h.symm.trans h1)
    subst hpe
    rw [heq, hinner]
    decide
  · exact absurd hrec (by simp)

/-- C8 counterexample: on the self-loop store the walk issues two db
queries while the store only mentions one distinct id, so the query count
is not bounded by the number of distinct ids. -/
theorem c8_lookup_bound_counterexample :
    (get_dependencies eLoop true "a").2 = 2 ∧ (idsOf eLoop).card = 1 ∧
      ¬ (get_dependencies eLoop true "a").2 ≤ (idsOf eLoop).card := by
  have he : (get_dependencies eLoop true "a") = ({"a"}, 2) := eLoop_eval
  rw [he]
  refine ⟨rfl, by decide, ?_⟩
  rw [show (idsOf eLoop).card = 1 from by decide]
  omega

/-! ## Context mapper, from src/plf/_transfer_utils.py

String primitives of Python (substring test, startswith, slicing) and of
pathlib (as_posix) are modelled over the character list of the string so
that every definition evaluates by kernel reduction. -/

/-- listHasPre s p is true when p is an initial segment of s; models
Python str.startswith. -/
def listHasPre : List Char → List Char → Bool
  | _, [] => true
  | [], _ :: _ => false
  | c :: cs, p :: ps => c == p && listHasPre cs ps

/-- listHasSub pat s is true when pat occurs inside s; models the Python
membership test pat in s. -/
def listHasSub (pat : List Char) : List Char → Bool
  | [] => pat.isEmpty
  | c :: cs => listHasPre (c :: cs) pat || listHasSub pat cs

/-- Model of the Python substring test pat in s. -/
def strContains (s pat : String) : Bool := listHasSub pat.data s.data

/-- Model of Python str.startswith. -/
def strStartsWith (s p : String) : Bool := listHasPre s.data p.data

/-- Model of Python slicing s[n:] by character count. -/
def strDrop (s : String) (n : Nat) : String := String.mk (s.data.drop n)

/-- Model of pathlib Path(s).as_posix(): separator normalization to
forward slashes.  pathlib is an external collaborator; on the posix-form
paths this repository handles the function is the identity. -/
def asPosix (s : String) : String :=
  String.mk (s.data.map (fun c => if c = '\\' then '/' else c))

/-- Model of dict.get on a string-keyed dict with insertion order
preserved (Python 3.7+ dict semantics). -/
def dictGet (m : List (String × String)) (k : String) : Option String :=
  (m.find? (fun e => e.1 == k)).map Prod.snd

/-- Embedding of TransferContext.map_src (_transfer_utils.py lines
108-122).  ppl_to_transfer models self._cfg["ppl_to_transfer"], and
pathMapOf tid models self._load_transfer_meta(tid).get("path_map", {}) as
an ordered association list (a missing transfer.json yields the empty
list, line 85).

The loop header, for src, dst in path_map.items(), rebinds the function
parameter src to the current map key, and the body rebinds dst to the
pathlib Path self.transfers_dir / transfer_id / "payload" / dst.  On the
first iteration src.startswith(src) therefore compares the key with
itself and is always True, and src.replace(src, dst, 1) passes a
pathlib.Path as the second argument of str.replace, which raises
TypeError.  With a non-empty path_map the function consequently raises
without ever inspecting the input path; it returns normally only when the
pipeline has no recorded transfer or the path_map is empty. -/
def map_src (ppl_to_transfer : List (String × String))
    (pathMapOf : String → List (String × String)) (src pplid : String) :
    Except String String :=
  let s := asPosix src
  match dictGet ppl_to_transfer pplid with
  | none => .ok s
  | some tid =>
    if tid = "" then .ok s
    else
      match pathMapOf tid with
      | [] => .ok s
      | (k, _) :: _ =>
        .error ("TypeError: replace() argument 2 must be str, not PosixPath; raised on path_map key " ++ k)

/-- Embedding of TransferContext.map_loc (_transfer_utils.py lines
124-132): exact-match lookup in the loc_map of the transfer that
delivered the pipeline; identity when the pipeline has no recorded
transfer or on lookup miss. -/
def map_loc (ppl_to_transfer : List (String × String))
    (locMapOf : String → List (String × String)) (loc pplid : String) : String :=
  match dictGet ppl_to_transfer pplid with
  | none => loc
  | some tid =>
    if tid = "" then loc
    else (dictGet (locMapOf tid) loc).getD loc

/-- Modelled from the spec: the map_path contract of section 4.2 that the
shadowed loop variable in map_src defeats (the spec flags the shadowing as
a latent defect in section 9).  Finds the first path_map key that is a
prefix of the normalized path and replaces that prefix with the
destination rooted at transfers_dir/transfer_id/payload/. -/
def firstKeyMatch (transfers_dir tid : String) :
    List (String × String) → String → String
  | [], s => s
  | (k, d) :: rest, s =>
    if strStartsWith s k then
      transfers_dir ++ "/" ++ tid ++ "/payload/" ++ d ++ strDrop s k.data.length
    else firstKeyMatch transfers_dir tid rest s

/-- Modelled from the spec: section 4.2 map_path, the intended behavior of
map_src. -/
def map_path_spec (ppl_to_transfer : List (String × String))
    (pathMapOf : String → List (String × String)) (transfers_dir : String)
    (src pplid : String) : String :=
  let s := asPosix src
  match dictGet ppl_to_transfer pplid with
  | none => s
  | some tid =>
    if tid = "" then s
    else firstKeyMatch transfers_dir tid (pathMapOf tid) s

/-- Embedding of plf1.transfer TransferContext.__init__ (lines 30-33):
path_map keys and values are normalized to posix form. -/
def tcNormalize (path_map : List (String × String)) : List (String × String) :=
  path_map.map (fun e => (asPosix e.1, asPosix e.2))

/-- Loop of plf1.transfer TransferContext.map_path (lines 37-39): the
first key that is a prefix of the path has that prefix replaced by its
mapped value (str.replace with count 1, guarded by startswith, so the
replacement happens at position 0). -/
def tcMapPathLoop : List (String × String) → String → String
  | [], p => p
  | (src, dst) :: rest, p =>
    if strStartsWith p src then dst ++ strDrop p src.data.length
    else tcMapPathLoop rest p

/-- Embedding of plf1.transfer TransferContext.map_path (lines 35-40),
the in-memory twin of map_src: no pplid lookup and no payload rooting. -/
def TransferContext.map_path (path_map : List (String × String)) (path : String) : String :=
  tcMapPathLoop (tcNormalize path_map) (asPosix path)

/-- Embedding of plf1.transfer TransferContext.map_component (lines
42-43): exact lookup with identity default. -/
def TransferContext.map_component (component_map : List (String × String))
    (loc : String) : String :=
  (dictGet component_map loc).getD loc

/-! Config trees for map_cnfg.  Mutual inductives (rather than a nested
List) keep the recursion structural so that evaluation reduces in the
kernel. -/

mutual
/-- A JSON-like config value: string, number, mapping or sequence. -/
inductive CVal : Type where
  | str : String → CVal
  | num : Int → CVal
  | dict : CEntries → CVal
  | arr : CList → CVal
/-- Ordered entries of a config mapping. -/
inductive CEntries : Type where
  | nil : CEntries
  | cons : String → CVal → CEntries → CEntries
/-- Elements of a config sequence. -/
inductive CList : Type where
  | nil : CList
  | cons : CVal → CList → CList
end

mutual
/-- Embedding of the remap closure of TransferContext.map_cnfg
(_transfer_utils.py lines 91-104).  f is map_loc closed over the pplid
read from the config (line 96).  String values under keys containing
"loc" go through f; string values under keys containing "src" raise
TypeError, because line 99 calls self.map_src(v) without the required
positional argument pplid; every other value is walked recursively. -/
def remap (f : String → String) : CVal → Except String CVal
  | .str s => .ok (.str s)
  | .num n => .ok (.num n)
  | .dict es =>
    match remapEntries f es with
    | .error e => .error e
    | .ok es2 => .ok (.dict es2)
  | .arr l =>
    match remapList f l with
    | .error e => .error e
    | .ok l2 => .ok (.arr l2)

/-- Dict case of the remap closure, entry by entry in insertion order. -/
def remapEntries (f : String → String) : CEntries → Except String CEntries
  | .nil => .ok .nil
  | .cons k (CVal.str s) rest =>
    if strContains k "loc" then
      match remapEntries f rest with
      | .error e => .error e
      | .ok r => .ok (.cons k (.str (f s)) r)
    else if strContains k "src" then
      .error "TypeError: map_src() missing 1 required positional argument: pplid"
    else
      match remapEntries f rest with
      | .error e => .error e
      | .ok r => .ok (.cons k (.str s) r)
  | .cons k v rest =>
    match remap f v with
    | .error e => .error e
    | .ok v2 =>
      match remapEntries f rest with
      | .error e => .error e
      | .ok r => .ok (.cons k v2 r)

/-- List case of the remap closure. -/
def remapList (f : String → String) : CList → Except String CList
  | .nil => .ok .nil
  | .cons v rest =>
    match remap f v with
    | .error e => .error e
    | .ok v2 =>
      match remapList f rest with
      | .error e => .error e
      | .ok r => .ok (.cons v2 r)
end

/-- Model of the dict access cnfg["pplid"] on an entries list. -/
def entriesGet : CEntries → String → Option CVal
  | .nil, _ => none
  | .cons k v rest, key => if k == key then some v else entriesGet rest key

/-- Embedding of TransferContext.map_cnfg (_transfer_utils.py lines
88-106).  cnfg["pplid"] raises KeyError when absent (line 90).  A
non-string pplid can never equal a string key of ppl_to_transfer, so for
that case map_loc degenerates to the identity, which the model applies
directly. -/
def map_cnfg (ppl_to_transfer : List (String × String))
    (locMapOf : String → List (String × String)) (cnfg : CEntries) :
    Except String CVal :=
  match entriesGet cnfg "pplid" with
  | none => .error "KeyError: pplid"
  | some (CVal.str pplid) =>
    remap (fun l => map_loc ppl_to_transfer locMapOf l pplid) (.dict cnfg)
  | some _ => remap (fun l => l) (.dict cnfg)

/-- Concrete lineage: pipeline p1 was delivered by transfer t1. -/
def pttX : List (String × String) := [("p1", "t1")]

/-- The path_map of transfer t1: origin prefix /data maps to
payload_data. -/
def pmX : String → List (String × String) := fun tid =>
  if tid = "t1" then [("/data", "payload_data")] else []

/-- The loc_map of transfer t1: location L1 maps to L2. -/
def lmX : String → List (String × String) := fun tid =>
  if tid = "t1" then [("L1", "L2")] else []

/-- C6: map_src evaluated at its failing input.  For a pipeline with a
recorded transfer and a non-empty path_map the code raises TypeError
instead of performing the prefix replacement the claim describes (shown
against the spec-modelled mapping); the pipeline-without-transfer case
does return the path unchanged as claimed. -/
theorem c6_map_src_typeerror :
    map_src pttX pmX "/data/x.txt" "p1" =
      .error "TypeError: replace() argument 2 must be str, not PosixPath; raised on path_map key /data" ∧
    map_path_spec pttX pmX "Transfers" "/data/x.txt" "p1" =
      "Transfers/t1/payload/payload_data/x.txt" ∧
    map_src pttX pmX "/x/y" "q" = .ok "/x/y" := by
  refine ⟨rfl, ?_, rfl⟩
  decide

/-! ## Archive codec and import, from src/plf1/transfer.py -/

/-- A zip archive member as seen through zipfile.ZipFile.infolist(): the
declared path of the member through pathlib (absolute flag and parts, the
parts keeping any ".." segment verbatim), and whether the member is a
directory entry. -/
structure ZMember where
  absolute : Bool
  parts : List String
  isDir : Bool
  deriving DecidableEq

/-- The check of _safe_extract (transfer.py line 53): a member is
rejected when its declared path is absolute or contains a
parent-directory segment. -/
def memberRejected (m : ZMember) : Bool :=
  m.absolute || m.parts.contains ".."

/-- Filesystem effects of the import paths, in program order. -/
inductive IEvent where
  | mkdir : String → IEvent
  | extractMember : ZMember → IEvent
  | materialize : List String → IEvent
  | attachContext : String → IEvent
  deriving DecidableEq

/-- Embedding of _safe_extract (transfer.py lines 48-55): create the
target directory, scan the declared path of every member and raise without
extracting anything if any is offending, and only then extract all
members into the target. -/
def _safe_extract (members : List ZMember) (target : String) :
    Except String Unit × List IEvent :=
  if members.any memberRejected then
    (.error "Unsafe ZIP content detected", [IEvent.mkdir target])
  else
    (.ok (), IEvent.mkdir target :: members.map IEvent.extractMember)

/-- Embedding of _import_on_remote (lines 273-318): staging extraction
into Transfers/<transfer_id>, then materialization of every extracted
file except transfer.json at its staging-relative path under the lab
root (the mode only selects shutil.move versus shutil.copy2, the same
write either way), then attachment of the runtime TransferContext to the
shared settings. -/
def _import_on_remote (members : List ZMember) (tid : String) (_mode : String) :
    Except String Unit × List IEvent :=
  let pre := [IEvent.mkdir "Transfers", IEvent.mkdir ("Transfers/" ++ tid)]
  match _safe_extract members ("Transfers/" ++ tid) with
  | (.error e, evs) => (.error e, pre ++ evs)
  | (.ok _, evs) =>
    let mats := (members.filter
        (fun m => !m.isDir && !(m.parts.getLast? == some "transfer.json"))).map
      (fun m => IEvent.materialize m.parts)
    (.ok (), pre ++ evs ++ mats ++ [IEvent.attachContext tid])

/-- Embedding of _import_on_base (lines 323-326): verbatim extraction of
the whole archive into RemoteResults/<transfer_id>, no materialization
into the live lab tree. -/
def _import_on_base (members : List ZMember) (tid : String) :
    Except String Unit × List IEvent :=
  _safe_extract members ("RemoteResults/" ++ tid)

/-- Embedding of import_transfer (lines 107-124).  The transfer.json
member of the archive is read (not extracted) to obtain the embedded
direction and transfer id, modelled as the direction and tid arguments;
the role check runs before any extraction. -/
def import_transfer (role direction tid : String) (members : List ZMember) :
    Except String Unit × List IEvent :=
  if direction = "base_to_remote" then
    if role ≠ "remote" then (.error "Operation allowed only in REMOTE lab", [])
    else _import_on_remote members tid "copy"
  else if direction = "remote_to_base" then
    if role ≠ "base" then (.error "Operation allowed only in BASE lab", [])
    else _import_on_base members tid
  else (.error "Unknown transfer direction", [])

/-- An import event that writes the content of an archive member to disk:
extraction into staging or materialization into the lab tree. -/
def writesMemberFile : IEvent → Bool
  | .extractMember _ => true
  | .materialize _ => true
  | _ => false

/-! ## Export, from src/plf1/transfer.py -/

/-- Filesystem and registry effects of the export paths, in program
order. -/
inductive Event where
  | mkdirParent : Event
  | createArchive : Event
  | writeEntry : String → Event
  | registryAppend : String → Event
  | deleteArtifact : String → Event
  deriving DecidableEq

instance {A B : Type} [DecidableEq A] [DecidableEq B] : DecidableEq (Except A B) :=
  fun a b =>
    match a, b with
    | .error x, .error y =>
      if h : x = y then isTrue (h ▸ rfl) else isFalse (fun hc => h (Except.error.inj hc))
    | .error _, .ok _ => isFalse (fun hc => Except.noConfusion hc)
    | .ok _, .error _ => isFalse (fun hc => Except.noConfusion hc)
    | .ok x, .ok y =>
      if h : x = y then isTrue (h ▸ rfl) else isFalse (fun hc => h (Except.ok.inj hc))

/-- Result and effect trace of an export call; the result carries the
minted transfer id on success (the Python function returns the archive
path named after it). -/
structure ExportOutcome where
  result : Except String String
  trace : List Event
  deriving DecidableEq

/-- Staging loop of _export_base_to_remote (lines 153-188): per pipeline,
verify (raising ValueError on failure), write the config entry at its
lab-relative arcname (configArc, erroring when config staging itself
raises, e.g. relative_to at line 162), then write the artifact entries;
the per-artifact try/except of lines 170-188 means a failed artifact
contributes no entries, which artEntries already accounts for.  The
returned list holds the entries written before any raise, together with
the raised error if any. -/
def stagePpls (verify : String → Bool) (configArc : String → Except String String)
    (artEntries : String → List String) : List String → List Event × Option String
  | [] => ([], none)
  | p :: rest =>
    if verify p = false then ([], some ("Invalid pplid: " ++ p))
    else
      match configArc p with
      | .error e => ([], some e)
      | .ok arc =>
        let evs := Event.writeEntry arc :: (artEntries p).map Event.writeEntry
        match stagePpls verify configArc artEntries rest with
        | (evs2, err) => (evs ++ evs2, err)

/-- Embedding of _export_base_to_remote (lines 129-213).  cloneRegistered
models clone_dir.exists(); tid models the minted transfer id (timestamp
plus uuid suffix, line 138, external randomness); configArc p models the
posix arcname Path(P.get_path(of="config")).resolve().relative_to(lab_base);
artEntries p models the lab-relative arcnames of the artifacts of p that
stage successfully; deletePaths p models the existing non-config artifact
paths of p removed by move mode (lines 200-211).  Opening
zipfile.ZipFile(zip_path, "w") at line 152 creates the archive file on
disk before any pipeline is verified, and closing it on an exception
still leaves the truncated file behind. -/
def _export_base_to_remote (role : String) (cloneRegistered : Bool)
    (cloneId tid : String) (ppls : List String) (verify : String → Bool)
    (configArc : String → Except String String) (artEntries : String → List String)
    (deletePaths : String → List String) (mode : String) : ExportOutcome :=
  if role ≠ "base" then ⟨.error "Operation allowed only in BASE lab", []⟩
  else if cloneRegistered = false then
    ⟨.error ("Clone " ++ cloneId ++ " not registered"), []⟩
  else
    match stagePpls verify configArc artEntries ppls with
    | (evs, some e) => ⟨.error e, Event.mkdirParent :: Event.createArchive :: evs⟩
    | (evs, none) =>
      ⟨.ok tid,
        (Event.mkdirParent :: Event.createArchive :: evs)
          ++ Event.writeEntry "transfer.json"
          :: Event.registryAppend tid
          :: (if mode = "move" then (ppls.flatMap deletePaths).map Event.deleteArtifact
              else [])⟩

/-- A non-config artifact of a pipeline as enumerated by P.paths on the
remote, with the existence and type information that P.get_path
provides. -/
structure RArt where
  kind : String
  present : Bool
  isDir : Bool
  dirFiles : List String
  fileName : String
  deriving DecidableEq

/-- The Results/<pplid>/<kind>/... arcnames one artifact contributes to a
results archive (lines 241-252): nothing for the config kind or a missing
path, every contained file for a directory, the single file name
otherwise. -/
def resultEntriesFor (pplid : String) (a : RArt) : List String :=
  if a.kind = "config" then []
  else if a.present = false then []
  else if a.isDir then
    a.dirFiles.map (fun f => "Results/" ++ pplid ++ "/" ++ a.kind ++ "/" ++ f)
  else ["Results/" ++ pplid ++ "/" ++ a.kind ++ "/" ++ a.fileName]

/-- Embedding of _export_remote_to_base (lines 218-268): the
transfer.json member is written first, at line 237, before any pipeline
content; move mode then deletes the existing non-config source artifacts
(lines 255-266). -/
def _export_remote_to_base (role tid : String) (ppls : List String)
    (arts : String → List RArt) (deletePaths : String → List String)
    (mode : String) : ExportOutcome :=
  if role ≠ "remote" then ⟨.error "Operation allowed only in REMOTE lab", []⟩
  else
    ⟨.ok tid,
      Event.mkdirParent :: Event.createArchive :: Event.writeEntry "transfer.json"
        :: (ppls.flatMap (fun p => (arts p).flatMap (resultEntriesFor p))).map Event.writeEntry
        ++ (if mode = "move" then (ppls.flatMap deletePaths).map Event.deleteArtifact
            else [])⟩

/-- Embedding of export_transfer (lines 82-102), the role dispatch.  A
falsy clone_id (None or the empty string) is modelled by the empty
string. -/
def export_transfer (role cloneId transfer_type mode tid : String)
    (cloneRegistered : Bool) (ppls : List String) (verify : String → Bool)
    (configArc : String → Except String String) (artEntries : String → List String)
    (arts : String → List RArt) (deletePaths : String → List String) : ExportOutcome :=
  if role = "base" then
    if cloneId = "" then ⟨.error "clone_id required for base export", []⟩
    else _export_base_to_remote role cloneRegistered cloneId tid ppls verify
      configArc artEntries deletePaths mode
  else if role = "remote" then
    if transfer_type ≠ "results" then
      ⟨.error "Remote can only export results back to base", []⟩
    else _export_remote_to_base role tid ppls arts deletePaths mode
  else ⟨.error "Unknown lab role", []⟩

/-- The archive member names written by a trace, in order. -/
def entriesOf : List Event → List String
  | [] => []
  | Event.writeEntry n :: rest => n :: entriesOf rest
  | _ :: rest => entriesOf rest

/-! ## Clone report, from src/plf1/transfer.py get_clones (lines 334-389) -/

/-- One directory entry under Clones/ as get_clones sees it: whether it
is a directory, whether clone.json exists, whether it parses, and the
parsed fields (read with dict.get, so an absent field is None). -/
structure CloneDirM where
  isDir : Bool
  hasCloneJson : Bool
  parseOk : Bool
  clone_id : Option String
  clone_type : Option String
  name : Option String
  desc : Option String
  created_at : Option String
  transfers : List String
  deriving DecidableEq

/-- One row of the clone report. -/
structure CloneRow where
  clone_id : Option String
  clone_type : Option String
  name : Option String
  desc : Option String
  created_at : Option String
  num_transfers : Nat
  deriving DecidableEq

/-- The columns of a pandas DataFrame together with its rows. -/
structure DF where
  columns : List String
  rows : List CloneRow
  deriving DecidableEq

/-- The fixed column set of the clone report. -/
def cloneColumns : List String :=
  ["clone_id", "clone_type", "name", "desc", "created_at", "num_transfers"]

/-- pandas.DataFrame built from a list of uniform record dicts: the
column index is the common key set for a non-empty list and empty for an
empty one (pd.DataFrame of an empty list has no columns). -/
def pdDataFrame (rows : List CloneRow) : DF :=
  if rows.isEmpty then ⟨[], []⟩ else ⟨cloneColumns, rows⟩

/-- Ascending created_at comparison used by sort_values; pandas places
missing values last. -/
def createdLe (a b : CloneRow) : Bool :=
  match a.created_at, b.created_at with
  | none, none => true
  | none, some _ => false
  | some _, none => true
  | some x, some y => decide (x ≤ y)

/-- Embedding of get_clones (lines 334-389).  clonesRoot is none when the
Clones directory does not exist; otherwise the directory entries in
iteration order.  Entries that are not directories, lack clone.json, or
fail to parse are skipped (lines 360-383). -/
def get_clones (role : String) (clonesRoot : Option (List CloneDirM)) :
    Except String DF :=
  if role ≠ "base" then .error "get_clones() is allowed only in BASE lab"
  else
    match clonesRoot with
    | none => .ok ⟨cloneColumns, []⟩
    | some dirs =>
      let rows := dirs.filterMap (fun c =>
        if c.isDir = false then none
        else if c.hasCloneJson = false then none
        else if c.parseOk = false then none
        else some ⟨c.clone_id, c.clone_type, c.name, c.desc, c.created_at,
          c.transfers.length⟩)
      let df := pdDataFrame rows
      if df.rows.isEmpty then .ok df
      else .ok ⟨df.columns, df.rows.mergeSort createdLe⟩

/-- A config whose data_src key carries a string path. -/
def cnfgBad : CEntries :=
  .cons "pplid" (.str "p1") (.cons "data_src" (.str "/data/x.txt") .nil)

/-- A config whose model_loc key carries a string location. -/
def cnfgLoc : CEntries :=
  .cons "pplid" (.str "p1") (.cons "model_loc" (.str "L1") .nil)

/-- C7: map_cnfg evaluated on concrete configs.  A string value under a
key containing "src" makes the whole walk raise TypeError (map_src is
called without its required pplid argument) instead of being replaced by
its map_path image; string values under keys containing "loc" are
rewritten through map_loc as described. -/
theorem c7_map_cnfg_typeerror :
    map_cnfg pttX lmX cnfgBad =
      .error "TypeError: map_src() missing 1 required positional argument: pplid" ∧
    map_cnfg pttX lmX cnfgLoc =
      .ok (.dict (.cons "pplid" (.str "p1") (.cons "model_loc" (.str "L2") .nil))) :=
  ⟨rfl, rfl⟩

/-! ## Claim theorems for import, export and the clone report -/

lemma any_rejected_of_mem {members : List ZMember}
    (h : ∃ m ∈ members, memberRejected m = true) :
    members.any memberRejected = true := by
  rcases h with ⟨m, hm, hr⟩
  exact List.any_eq_true.mpr ⟨m, hm, hr⟩

lemma safe_extract_rejects (members : List ZMember) (target : String)
    (hany : members.any memberRejected = true) :
    _safe_extract members target =
      (.error "Unsafe ZIP content detected", [IEvent.mkdir target]) := by
  unfold _safe_extract
  rw [if_pos hany]

lemma import_on_remote_rejects (members : List ZMember) (tid mode : String)
    (hany : members.any memberRejected = true) :
    _import_on_remote members tid mode =
      (.error "Unsafe ZIP content detected",
        [IEvent.mkdir "Transfers", IEvent.mkdir ("Transfers/" ++ tid),
         IEvent.mkdir ("Transfers/" ++ tid)]) := by
  unfold _import_on_remote
  rw [safe_extract_rejects members ("Transfers/" ++ tid) hany]
  rfl

/-- C1: an archive whose member list contains an absolute path or a
parent-directory traversal segment is rejected by import before any
extraction: the operation raises and no event writing an archive member
file to disk occurs, on either import path. -/
theorem c1_import_rejects_traversal (role direction tid : String)
    (members : List ZMember) (h : ∃ m ∈ members, memberRejected m = true) :
    (∃ e, (import_transfer role direction tid members).1 = .error e) ∧
      ∀ ev ∈ (import_transfer role direction tid members).2,
        writesMemberFile ev = false := by
  have hany := any_rejected_of_mem h
  unfold import_transfer
  by_cases hd1 : direction = "base_to_remote"
  · rw [if_pos hd1]
    by_cases hr1 : role ≠ "remote"
    · rw [if_pos hr1]
      exact ⟨⟨_, rfl⟩, by intro ev hev; simp at hev⟩
    · rw [if_neg hr1]
      rw [import_on_remote_rejects members tid "copy" hany]
      refine ⟨⟨_, rfl⟩, ?_⟩
      intro ev hev
      simp only [List.mem_cons, List.not_mem_nil, or_false] at hev
      rcases hev with rfl | rfl | rfl <;> rfl
  · rw [if_neg hd1]
    by_cases hd2 : direction = "remote_to_base"
    · rw [if_pos hd2]
      by_cases hr2 : role ≠ "base"
      · rw [if_pos hr2]
        exact ⟨⟨_, rfl⟩, by intro ev hev; simp at hev⟩
      · rw [if_neg hr2]
        unfold _import_on_base
        rw [safe_extract_rejects members ("RemoteResults/" ++ tid) hany]
        refine ⟨⟨_, rfl⟩, ?_⟩
        intro ev hev
        simp only [List.mem_cons, List.not_mem_nil, or_false] at hev
        subst hev
        rfl
    · rw [if_neg hd2]
      exact ⟨⟨_, rfl⟩, by intro ev hev; simp at hev⟩

/-- The traversal member ../../etc/passwd from the safety property of
the spec. -/
def zTraversal : ZMember := ⟨false, ["..", "..", "etc", "passwd"], false⟩

/-- Witness for C1: importing the concrete archive containing only
../../etc/passwd on a remote lab neither extracts nor materializes that
member. -/
theorem c1_import_rejects_traversal_witness :
    IEvent.extractMember zTraversal ∉
      (import_transfer "remote" "base_to_remote" "t9" [zTraversal]).2 ∧
    IEvent.materialize zTraversal.parts ∉
      (import_transfer "remote" "base_to_remote" "t9" [zTraversal]).2 := by
  have h := c1_import_rejects_traversal "remote" "base_to_remote" "t9" [zTraversal]
    ⟨zTraversal, by decide, by decide⟩
  constructor
  · intro hm
    have hw := h.2 _ hm
    simp [writesMemberFile] at hw
  · intro hm
    have hw := h.2 _ hm
    simp [writesMemberFile] at hw

/-- C2: an export requested on a remote lab with transfer_type run raises
without creating any archive or directory, and an import of an archive
whose embedded direction is base_to_remote raises on a base lab before
extracting anything. -/
theorem c2_role_gating (cloneId mode tid : String) (cloneRegistered : Bool)
    (ppls : List String) (verify : String → Bool)
    (configArc : String → Except String String) (artEntries : String → List String)
    (arts : String → List RArt) (deletePaths : String → List String)
    (itid : String) (members : List ZMember) :
    export_transfer "remote" cloneId "run" mode tid cloneRegistered ppls verify
        configArc artEntries arts deletePaths =
      ⟨.error "Remote can only export results back to base", []⟩ ∧
    import_transfer "base" "base_to_remote" itid members =
      (.error "Operation allowed only in REMOTE lab", []) :=
  ⟨rfl, rfl⟩

lemma entriesOf_append (l1 l2 : List Event) :
    entriesOf (l1 ++ l2) = entriesOf l1 ++ entriesOf l2 := by
  induction l1 with
  | nil => rfl
  | cons a l ih => cases a <;> simp [entriesOf, ih]

lemma entriesOf_deletes (l : List String) :
    entriesOf (l.map Event.deleteArtifact) = [] := by
  induction l with
  | nil => rfl
  | cons a l ih => simpa [entriesOf] using ih

/-- Every event staged by the pipeline loop is an archive entry write. -/
lemma stagePpls_events (verify : String → Bool) (configArc : String → Except String String)
    (artEntries : String → List String) :
    ∀ (ppls : List String) (ev : Event),
      ev ∈ (stagePpls verify configArc artEntries ppls).1 →
        ∃ n, ev = Event.writeEntry n := by
  intro ppls
  induction ppls with
  | nil => intro ev hev; simp [stagePpls] at hev
  | cons p rest ih =>
    intro ev hev
    unfold stagePpls at hev
    by_cases hv : verify p = false
    · rw [if_pos hv] at hev; simp at hev
    · rw [if_neg hv] at hev
      cases hc : configArc p with
      | error e => rw [hc] at hev; simp at hev
      | ok arc =>
        rw [hc] at hev
        rcases hst : stagePpls verify configArc artEntries rest with ⟨evs2, err⟩
        rw [hst] at hev
        simp only [List.cons_append, List.mem_cons, List.mem_append,
          List.mem_map] at hev
        rcases hev with rfl | (⟨n, _, rfl⟩ | hm2)
        · exact ⟨arc, rfl⟩
        · exact ⟨n, rfl⟩
        · exact ih ev (by rw [hst]; exact hm2)

/-- A pipeline list containing an id that fails verification makes the
staging loop raise. -/
lemma stagePpls_fails (verify : String → Bool) (configArc : String → Except String String)
    (artEntries : String → List String) :
    ∀ (ppls : List String), (∃ p ∈ ppls, verify p = false) →
      ∃ e, (stagePpls verify configArc artEntries ppls).2 = some e := by
  intro ppls
  induction ppls with
  | nil => intro h; rcases h with ⟨p, hp, _⟩; simp at hp
  | cons q rest ih =>
    intro h
    unfold stagePpls
    by_cases hv : verify q = false
    · rw [if_pos hv]; exact ⟨_, rfl⟩
    · rw [if_neg hv]
      cases hc : configArc q with
      | error e => exact ⟨e, rfl⟩
      | ok arc =>
        have hrest : ∃ p ∈ rest, verify p = false := by
          rcases h with ⟨p, hp, hpf⟩
          rcases List.mem_cons.mp hp with rfl | hm
          · exact absurd hpf hv
          · exact ⟨p, hm, hpf⟩
        rcases hst : stagePpls verify configArc artEntries rest with ⟨evs2, err⟩
        rcases ih hrest with ⟨e, he⟩
        rw [hst] at he
        exact ⟨e, by simpa using he⟩

/-- C4 (amended): a successful base-to-remote export writes transfer.json
as the last member of its archive, while the remote-to-base results
export writes transfer.json as the first member, before all pipeline
content. -/
theorem c4_transfer_json_position (cloneRegistered : Bool) (cloneId tid : String)
    (ppls : List String) (verify : String → Bool)
    (configArc : String → Except String String) (artEntries : String → List String)
    (deletePaths : String → List String) (mode : String)
    (h : ∃ t, (_export_base_to_remote "base" cloneRegistered cloneId tid ppls verify
        configArc artEntries deletePaths mode).result = .ok t)
    (rtid : String) (rppls : List String) (arts : String → List RArt)
    (rdeletePaths : String → List String) (rmode : String) :
    (entriesOf (_export_base_to_remote "base" cloneRegistered cloneId tid ppls verify
        configArc artEntries deletePaths mode).trace).getLast? = some "transfer.json" ∧
    (entriesOf (_export_remote_to_base "remote" rtid rppls arts rdeletePaths
        rmode).trace).head? = some "transfer.json" := by
  constructor
  · rcases h with ⟨t, ht⟩
    unfold _export_base_to_remote at ht ⊢
    rw [if_neg (by simp)] at ht ⊢
    by_cases hcr : cloneRegistered = false
    · rw [if_pos hcr] at ht
      exact absurd ht (by simp)
    · rw [if_neg hcr] at ht ⊢
      rcases hst : stagePpls verify configArc artEntries ppls with ⟨evs, err⟩
      rw [hst] at ht
      cases err with
      | some e => simp at ht
      | none =>
        have hdel : entriesOf (if mode = "move"
            then (ppls.flatMap deletePaths).map Event.deleteArtifact else []) = [] := by
          by_cases hm : mode = "move"
          · rw [if_pos hm]; exact entriesOf_deletes _
          · rw [if_neg hm]; rfl
        show (entriesOf ((Event.mkdirParent :: Event.createArchive :: evs)
          ++ Event.writeEntry "transfer.json" :: Event.registryAppend tid
          :: (if mode = "move" then (ppls.flatMap deletePaths).map
                Event.deleteArtifact else []))).getLast? = some "transfer.json"
        rw [entriesOf_append]
        simp only [entriesOf]
        rw [hdel]
        rw [List.getLast?_concat]
  · unfold _export_remote_to_base
    rw [if_neg (by simp)]
    show (entriesOf ((Event.mkdirParent :: Event.createArchive
      :: Event.writeEntry "transfer.json"
      :: (rppls.flatMap (fun p => (arts p).flatMap (resultEntriesFor p))).map
          Event.writeEntry)
      ++ (if rmode = "move" then (rppls.flatMap rdeletePaths).map Event.deleteArtifact
          else []))).head? = some "transfer.json"
    rw [entriesOf_append]
    simp [entriesOf]

/-- A single file artifact of kind out named f.txt. -/
def rartOut : RArt := ⟨"out", true, false, [], "f.txt"⟩

/-- C4 counterexample: a results export with one staged artifact writes
transfer.json as the first member and the artifact after it, so
transfer.json is not the last member of the remote-to-base archive. -/
theorem c4_counterexample_results_first :
    entriesOf (_export_remote_to_base "remote" "r1" ["p1"] (fun _ => [rartOut])
        (fun _ => []) "copy").trace = ["transfer.json", "Results/p1/out/f.txt"] ∧
    (entriesOf (_export_remote_to_base "remote" "r1" ["p1"] (fun _ => [rartOut])
        (fun _ => []) "copy").trace).getLast? ≠ some "transfer.json" := by
  refine ⟨rfl, ?_⟩
  decide

/-- Witness for C4 at concrete successful exports on each side. -/
theorem c4_transfer_json_position_witness :
    (entriesOf (_export_base_to_remote "base" true "labX" "t1" ["p1"] (fun _ => true)
        (fun p => .ok ("Pipelines/" ++ p ++ "/config.json"))
        (fun _ => ["Pipelines/p1/model.bin"]) (fun _ => []) "copy").trace).getLast? =
      some "transfer.json" ∧
    (entriesOf (_export_remote_to_base "remote" "r2" ["p2"] (fun _ => [])
        (fun _ => []) "copy").trace).head? = some "transfer.json" :=
  c4_transfer_json_position true "labX" "t1" ["p1"] (fun _ => true)
    (fun p => .ok ("Pipelines/" ++ p ++ "/config.json"))
    (fun _ => ["Pipelines/p1/model.bin"]) (fun _ => []) "copy" ⟨"t1", rfl⟩
    "r2" ["p2"] (fun _ => []) (fun _ => []) "copy"

/-- C5 (amended): a base export whose pipeline list contains an id that
fails verification raises and is never finalized: no registry append and
no move-phase deletion occurs; the archive file itself has however
already been created and entries of pipelines staged before the failing
one may already be inside it. -/
theorem c5_unverified_pipeline_aborts (cloneRegistered : Bool) (cloneId tid : String)
    (ppls : List String) (verify : String → Bool)
    (configArc : String → Except String String) (artEntries : String → List String)
    (deletePaths : String → List String) (mode : String)
    (h : ∃ p ∈ ppls, verify p = false) :
    (∃ e, (_export_base_to_remote "base" cloneRegistered cloneId tid ppls verify
        configArc artEntries deletePaths mode).result = .error e) ∧
    (∀ t, Event.registryAppend t ∉
      (_export_base_to_remote "base" cloneRegistered cloneId tid ppls verify
        configArc artEntries deletePaths mode).trace) ∧
    (∀ q, Event.deleteArtifact q ∉
      (_export_base_to_remote "base" cloneRegistered cloneId tid ppls verify
        configArc artEntries deletePaths mode).trace) := by
  unfold _export_base_to_remote
  rw [if_neg (by simp)]
  by_cases hcr : cloneRegistered = false
  · rw [if_pos hcr]
    exact ⟨⟨_, rfl⟩, fun t ht => by simp at ht, fun q hq => by simp at hq⟩
  · rw [if_neg hcr]
    rcases hst : stagePpls verify configArc artEntries ppls with ⟨evs, err⟩
    rcases stagePpls_fails verify configArc artEntries ppls h with ⟨e, he⟩
    rw [hst] at he
    simp only [] at he
    subst he
    refine ⟨⟨e, rfl⟩, ?_, ?_⟩
    · intro t ht
      simp only [List.mem_cons] at ht
      rcases ht with h1 | h1 | hm
      · exact Event.noConfusion h1
      · exact Event.noConfusion h1
      · rcases stagePpls_events verify configArc artEntries ppls _
          (by rw [hst]; exact hm) with ⟨n, hn⟩
        exact Event.noConfusion hn
    · intro q hq
      simp only [List.mem_cons] at hq
      rcases hq with h1 | h1 | hm
      · exact Event.noConfusion h1
      · exact Event.noConfusion h1
      · rcases stagePpls_events verify configArc artEntries ppls _
          (by rw [hst]; exact hm) with ⟨n, hn⟩
        exact Event.noConfusion hn

/-- Verification oracle failing exactly on pipeline bad. -/
def verifyX : String → Bool := fun p => !(p == "bad")

/-- Config arcname oracle used by the concrete export scenarios. -/
def cfgArcX : String → Except String String :=
  fun p => .ok ("Pipelines/" ++ p ++ "/config.json")

/-- C5 counterexample: exporting [good, bad] where bad fails verification
raises, yet the archive file was created and the config entry of good had
already been written into it — archive bytes exist on disk at the
abort. -/
theorem c5_counterexample_archive_bytes_written :
    ("bad" ∈ ["good", "bad"] ∧ verifyX "bad" = false) ∧
    (_export_base_to_remote "base" true "labX" "t1" ["good", "bad"] verifyX
        cfgArcX (fun _ => []) (fun _ => []) "copy").result =
      .error "Invalid pplid: bad" ∧
    Event.createArchive ∈ (_export_base_to_remote "base" true "labX" "t1"
        ["good", "bad"] verifyX cfgArcX (fun _ => []) (fun _ => []) "copy").trace ∧
    Event.writeEntry "Pipelines/good/config.json" ∈
      (_export_base_to_remote "base" true "labX" "t1" ["good", "bad"] verifyX cfgArcX
        (fun _ => []) (fun _ => []) "copy").trace := by
  refine ⟨⟨by decide, by decide⟩, by decide, by decide, by decide⟩

/-- Witness for C5 at a concrete failing export. -/
theorem c5_unverified_pipeline_aborts_witness :
    Event.registryAppend "t2" ∉ (_export_base_to_remote "base" true "labW" "t2"
      ["solo"] (fun _ => false) cfgArcX (fun _ => []) (fun _ => []) "copy").trace :=
  (c5_unverified_pipeline_aborts true "labW" "t2" ["solo"] (fun _ => false) cfgArcX
    (fun _ => []) (fun _ => []) "copy" ⟨"solo", by decide, rfl⟩).2.1 "t2"

lemma mem_takeWhile_append_stop (p : Event → Bool) (l1 l2 : List Event) (w : Event)
    (hw : p w = false) (x : Event) (hx : x ∈ (l1 ++ w :: l2).takeWhile p) : x ∈ l1 := by
  induction l1 with
  | nil =>
    rw [List.nil_append, List.takeWhile_cons_of_neg (by simp [hw])] at hx
    simp at hx
  | cons a l ih =>
    rw [List.cons_append] at hx
    by_cases hpa : p a = true
    · rw [List.takeWhile_cons_of_pos hpa] at hx
      rcases List.mem_cons.mp hx with rfl | hx2
      · exact List.mem_cons_self _ _
      · exact List.mem_cons_of_mem _ (ih hx2)
    · rw [List.takeWhile_cons_of_neg (by simpa using hpa)] at hx
      simp at hx

/-- C10: in a base-to-remote export the minted transfer id reaches the
clone registry only after the archive is sealed: if the export raises,
the clone.json registry is never appended to, and in every trace no
registry append precedes the write of the transfer.json member. -/
theorem c10_registry_append_after_seal (role : String) (cloneRegistered : Bool)
    (cloneId tid : String) (ppls : List String) (verify : String → Bool)
    (configArc : String → Except String String) (artEntries : String → List String)
    (deletePaths : String → List String) (mode : String) :
    ((∃ e, (_export_base_to_remote role cloneRegistered cloneId tid ppls verify
        configArc artEntries deletePaths mode).result = .error e) →
      ∀ t, Event.registryAppend t ∉
        (_export_base_to_remote role cloneRegistered cloneId tid ppls verify
          configArc artEntries deletePaths mode).trace) ∧
    ∀ t, Event.registryAppend t ∉
      ((_export_base_to_remote role cloneRegistered cloneId tid ppls verify configArc
        artEntries deletePaths mode).trace.takeWhile
          (fun ev => !(ev == Event.writeEntry "transfer.json"))) := by
  unfold _export_base_to_remote
  by_cases hrole : role ≠ "base"
  · rw [if_pos hrole]
    exact ⟨fun _ t ht => by simp at ht, fun t ht => by simp at ht⟩
  · rw [if_neg hrole]
    by_cases hcr : cloneRegistered = false
    · rw [if_pos hcr]
      exact ⟨fun _ t ht => by simp at ht, fun t ht => by simp at ht⟩
    · rw [if_neg hcr]
      rcases hst : stagePpls verify configArc artEntries ppls with ⟨evs, err⟩
      have hevs : ∀ ev ∈ evs, ∃ n, ev = Event.writeEntry n := fun ev hm =>
        stagePpls_events verify configArc artEntries ppls ev (by rw [hst]; exact hm)
      cases err with
      | some e =>
        constructor
        · intro _ t ht
          simp only [List.mem_cons] at ht
          rcases ht with h1 | h1 | hm
          · exact Event.noConfusion h1
          · exact Event.noConfusion h1
          · rcases hevs _ hm with ⟨n, hn⟩
            exact Event.noConfusion hn
        · intro t ht
          have hm := List.takeWhile_subset _ ht
          simp only [List.mem_cons] at hm
          rcases hm with h1 | h1 | hm2
          · exact Event.noConfusion h1
          · exact Event.noConfusion h1
          · rcases hevs _ hm2 with ⟨n, hn⟩
            exact Event.noConfusion hn
      | none =>
        constructor
        · intro hcontra t _
          rcases hcontra with ⟨e, he⟩
          exact absurd he (by simp)
        · intro t ht
          have hx := mem_takeWhile_append_stop _ _ _ _ (by simp) _ ht
          simp only [List.mem_cons] at hx
          rcases hx with h1 | h1 | hm
          · exact Event.noConfusion h1
          · exact Event.noConfusion h1
          · rcases hevs _ hm with ⟨n, hn⟩
            exact Event.noConfusion hn

/-- Witness for C10 at a concrete raising export (unregistered clone): the
registry is untouched. -/
theorem c10_registry_append_after_seal_witness :
    Event.registryAppend "t1" ∉ (_export_base_to_remote "base" false "labX" "t1" []
      (fun _ => true) cfgArcX (fun _ => []) (fun _ => []) "copy").trace :=
  (c10_registry_append_after_seal "base" false "labX" "t1" [] (fun _ => true) cfgArcX
    (fun _ => []) (fun _ => []) "copy").1 ⟨"Clone labX not registered", rfl⟩ "t1"

/-- C9 (amended): with zero registered clones the report always has zero
rows; the fixed column set is produced when the Clones directory does not
exist, but an existing Clones directory containing no valid clone entry
yields an empty column set instead. -/
theorem c9_empty_registry_schema :
    get_clones "base" none = .ok ⟨cloneColumns, []⟩ ∧
    get_clones "base" (some []) = .ok ⟨[], []⟩ :=
  ⟨rfl, rfl⟩

/-- C9 counterexample: when the Clones directory exists but holds no
valid clone entry the report has zero rows and zero columns, not the
fixed column set the claim requires regardless of data presence. -/
theorem c9_counterexample_empty_dir :
    get_clones "base" (some []) = .ok ⟨[], []⟩ ∧
    (DF.mk [] []).columns ≠ cloneColumns := by
  refine ⟨rfl, ?_⟩
  decide

end PLF
